import Mathlib

/-!
Shallow embedding of the Totem daemon orchestration layer
(`totem_daemon.py` of dannybabbev/totem) and proofs of the spec claims.

Modelling conventions:
* JSON parameter values are modelled by `Totem.Value` (strings, integers,
  booleans); parameter dictionaries by association lists looked up
  first-match, matching Python dict access for unique keys.
* Wall-clock time (`time.time()`) is modelled as an integer tick count;
  only ordering and differences of timestamps matter to the daemon.
* A Python exception escaping the embedded fragment is modelled by
  `Totem.Outcome.exn`; within the routed fragment the only raising site
  is `float(params.get("duration", 0))` in `_handle_compound`.
* Concrete hardware modules are opaque: the daemon is parametric over a
  module state type `M` and a `ModuleOps M` record embedding the
  `HardwareModule` contract of `hardware/base.py`.
* Hardware-touching effects are recorded in a trace of `Totem.Action`s:
  lock acquisition/release, `handle_command` invocations, and OpenClaw
  notification dispatches.
-/

namespace Totem

/-- A JSON-ish parameter value as passed in command envelopes. -/
inductive Value where
  | vstr (s : String)
  | vint (n : Int)
  | vbool (b : Bool)
deriving DecidableEq, Repr

/-- A parameter dictionary (`params` of an envelope, `data` of an event). -/
def Params := List (String × Value)
deriving DecidableEq, Repr

/-- Python truthiness of a value (`if not peek`, `and message`). -/
def Value.truthy : Value → Bool
  | .vstr s => s ≠ ""
  | .vint n => n ≠ 0
  | .vbool b => b

/-- Result of a Python computation that may raise: `exn` carries the
exception text. -/
inductive Outcome (α : Type) where
  | ok (a : α)
  | exn (msg : String)
deriving DecidableEq, Repr

/-- `dict.get(key, default)` on a parameter dictionary. -/
def pget (ps : Params) (k : String) (d : Value) : Value :=
  match List.lookup k ps with
  | some v => v
  | none => d

/-- `float(v)` as used on the `duration` parameter: succeeds on numbers and
booleans, and on strings that parse as an integer literal (fractional
literals are abstracted away by the integer clock); raises otherwise. -/
def pyFloat : Value → Outcome Int
  | .vint n => .ok n
  | .vbool b => .ok (if b then 1 else 0)
  | .vstr s =>
    match s.toInt? with
    | some n => .ok n
    | none => .exn ("could not convert string to float: " ++ s)

/-- One recorded event (`_on_event`): source module, event type tag, data
mapping and timestamps. `timestampIso` abstracts the `strftime` rendering
of the wall clock. -/
structure Event where
  module : String
  event : String
  data : Params
  timestamp : Int
  timestampIso : String
deriving DecidableEq, Repr

/-- Abstracted ISO rendering of a clock value. -/
def isoOf (t : Int) : String := toString t

/-- Success payloads (`data` field shapes) produced by the daemon. -/
inductive RData where
  | pong
  | events (evs : List Event) (count : Nat)
  | express (emotion : Value) (message : Value)
  | statusData (entries : List (String × Outcome Params))
  | capsData (entries : List (String × Outcome Params))
  | modData (p : Params)
deriving DecidableEq, Repr

/-- A JSON response dict: `ok` plus optional `error`, `data` and
(batch only) `results` fields. -/
inductive Response where
  | mk (ok : Bool) (error : Option String) (data : Option RData)
      (results : Option (List Response))

/-- `r.get("ok", False)` on a response dict. -/
def Response.getOk : Response → Bool
  | .mk ok _ _ _ => ok

/-- The `error` field of a response dict. -/
def Response.getError : Response → Option String
  | .mk _ e _ _ => e

/-- The `results` field of a response dict. -/
def Response.getResults : Response → Option (List Response)
  | .mk _ _ _ rs => rs

/-- The `data` field of a response dict. -/
def Response.getData : Response → Option RData
  | .mk _ _ d _ => d

/-- `{"ok": false, "error": msg}`. -/
def errResp (msg : String) : Response := .mk false (some msg) none none

/-- `{"ok": true, "data": d}`. -/
def okResp (d : RData) : Response := .mk true none (some d) none

/-- The `HardwareModule` contract of `hardware/base.py`, embedded as
operations over an opaque per-module state `M`.  `handleCommand` never
raises (per the contract every module catches internally and returns an
error dict); `initModule`, `getState` and `getCapabilities` may raise. -/
structure ModuleOps (M : Type) where
  handleCommand : M → String → Params → Response × M
  getState : M → Outcome Params
  getCapabilities : M → Outcome Params
  initModule : M → Outcome M
  /-- Modelled from the spec: `set_event_callback` is called by
  `TotemDaemon.init_modules` but is defined nowhere in the repository
  sources; per §4.1/§6 of the spec it only wires the daemon-supplied
  `emit_event` upcall into the module instance before any command is
  dispatched, so it is modelled as a total state update that cannot
  fail. -/
  setEventCallback : M → M

/-- The mutable daemon state of `TotemDaemon.__init__`: registry
(name → module instance, insertion-ordered like a Python dict), event
queue, and the notification-cooldown fields. -/
structure DaemonState (M : Type) where
  modules : List (String × M)
  events : List Event
  lastNotifyTime : Int
  notifyCooldown : Int
  notifyEnabled : Bool
  openclawBin : Bool
deriving DecidableEq, Repr

/-- The daemon state right after `TotemDaemon.__init__`: empty registry and
queue, `_last_notify_time = 0`, `_notify_cooldown = 5`; the notify-enabled
flag and presence of the `openclaw` binary come from the environment. -/
def initState (M : Type) (notifyEnabled openclawBin : Bool) : DaemonState M :=
  ⟨[], [], 0, 5, notifyEnabled, openclawBin⟩

/-- Replace the binding of key `n` (Python `dict[n] = v` on an existing
key). -/
def updateKey (n : String) (m : M) : List (String × M) → List (String × M)
  | [] => []
  | (k, v) :: rest => if k = n then (k, m) :: rest else (k, v) :: updateKey n m rest

/-- The registry keys, in insertion order (`list(self._modules.keys())`). -/
def keysOf (l : List (String × M)) : List String := l.map (fun nm => nm.1)

/-- Observable hardware-touching steps, recorded as a trace: global-lock
acquire/release, a `handle_command` invocation on a named module, and an
OpenClaw notification dispatch. -/
inductive Action where
  | acquire
  | release
  | hcall (modName action : String) (ps : Params)
  | notifyDispatch (e : Event)
deriving DecidableEq, Repr

/-- The event constructed at the top of `TotemDaemon._on_event`. -/
def mkEvent (moduleName eventType : String) (data : Params) (tEvent : Int) : Event :=
  ⟨moduleName, eventType, data, tEvent, isoOf tEvent⟩

/-- `if len(self._events) > 100: self._events = self._events[-100:]`. -/
def trimQueue (evs : List Event) : List Event :=
  if evs.length > 100 then evs.drop (evs.length - 100) else evs

/-- `TotemDaemon._on_event`: store the event in the bounded queue; for a
`"touched"` event whose cooldown has elapsed, update the cooldown
timestamp, drive the face/lcd reaction under the global lock, and (when
notification is enabled and the binary exists) dispatch to OpenClaw.
`tEvent` and `tNow` are the two successive `time.time()` readings. -/
def onEvent (ops : ModuleOps M) (st : DaemonState M) (moduleName eventType : String)
    (data : Params) (tEvent tNow : Int) : DaemonState M × List Action :=
  let ev := mkEvent moduleName eventType data tEvent
  let st := {st with events := trimQueue (st.events ++ [ev])}
  if eventType = "touched" then
    if st.notifyCooldown ≤ tNow - st.lastNotifyTime then
      let st := {st with lastNotifyTime := tNow}
      let faceStep :=
        match List.lookup "face" st.modules with
        | some m =>
          let fp : Params := [("name", .vstr "surprised")]
          let (_r, m2) := ops.handleCommand m "expression" fp
          ({st with modules := updateKey "face" m2 st.modules},
           [Action.hcall "face" "expression" fp])
        | none => (st, ([] : List Action))
      let st := faceStep.1
      let lcdStep :=
        match List.lookup "lcd" st.modules with
        | some m =>
          let wp : Params := [("line1", .vstr "I felt that!"),
                              ("line2", .vstr "Thinking..."),
                              ("align", .vstr "center")]
          let (_r, m2) := ops.handleCommand m "write" wp
          ({st with modules := updateKey "lcd" m2 st.modules},
           [Action.hcall "lcd" "write" wp])
        | none => (st, ([] : List Action))
      let st := lcdStep.1
      let trNotify :=
        if st.notifyEnabled && st.openclawBin then [Action.notifyDispatch ev] else []
      (st, [Action.acquire] ++ faceStep.2 ++ lcdStep.2 ++ [Action.release] ++ trNotify)
    else (st, [])
  else (st, [])

/-- `TotemDaemon._get_events`: returns a copy of the pending events and,
unless `peek`, clears the queue. -/
def getEvents (st : DaemonState M) (peek : Bool) : List Event × DaemonState M :=
  (st.events, if peek then st else {st with events := []})

/-- `TotemDaemon._handle_system`: `ping`, `status`, `capabilities`
(per-module failures isolated inline as `Outcome`), `events` with an
optional truthy `peek` flag, and the unknown-action error. -/
def handleSystem (ops : ModuleOps M) (st : DaemonState M) (action : String)
    (ps : Params) : Response × DaemonState M :=
  if action = "ping" then (okResp .pong, st)
  else if action = "status" then
    (okResp (.statusData (st.modules.map (fun nm => (nm.1, ops.getState nm.2)))), st)
  else if action = "capabilities" then
    (okResp (.capsData (st.modules.map (fun nm => (nm.1, ops.getCapabilities nm.2)))), st)
  else if action = "events" then
    let peek := (pget ps "peek" (.vbool false)).truthy
    let res := getEvents st peek
    (okResp (.events res.1 res.1.length), res.2)
  else (errResp s!"Unknown system action '{action}'", st)

/-- `TotemDaemon._handle_compound`, `express` branch: parse `duration`
(raising on a non-numeric value), set the face expression when a face
module is registered, write the first 32 characters of a truthy message
to a registered lcd module as two 16-character lines, each sub-step under
the global lock, and return the AND of the collected sub-results. -/
def handleCompound (ops : ModuleOps M) (st : DaemonState M) (action : String)
    (ps : Params) : Outcome (Response × DaemonState M × List Action) :=
  if action = "express" then
    let emotion := pget ps "emotion" (.vstr "neutral")
    let message := pget ps "message" (.vstr "")
    match pyFloat (pget ps "duration" (.vint 0)) with
    | .exn e => .exn e
    | .ok _duration =>
      let faceStep :=
        match List.lookup "face" st.modules with
        | some m =>
          let fp : Params := [("name", emotion)]
          let (r, m2) := ops.handleCommand m "expression" fp
          ({st with modules := updateKey "face" m2 st.modules}, [r],
           [Action.acquire, Action.hcall "face" "expression" fp, Action.release])
        | none => (st, ([] : List Response), ([] : List Action))
      let st1 := faceStep.1
      let lcdStep : Outcome (DaemonState M × List Response × List Action) :=
        match List.lookup "lcd" st1.modules with
        | some m =>
          if message.truthy then
            match message with
            | .vstr s =>
              let line1 := s.take 16
              let line2 := if s.length > 16 then (s.drop 16).take 16 else ""
              let wp : Params := [("line1", .vstr line1), ("line2", .vstr line2)]
              let (r, m2) := ops.handleCommand m "write" wp
              .ok ({st1 with modules := updateKey "lcd" m2 st1.modules}, [r],
                   [Action.acquire, Action.hcall "lcd" "write" wp, Action.release])
            | _ => .exn "object is not subscriptable"
          else .ok (st1, [], [])
        | none => .ok (st1, [], [])
      match lcdStep with
      | .exn e => .exn e
      | .ok (st2, results2, tr2) =>
        let results := faceStep.2.1 ++ results2
        .ok (Response.mk (results.all Response.getOk) none
               (some (.express emotion message)) none,
             st2, faceStep.2.2 ++ tr2)
  else .ok (errResp s!"Unknown compound action '{action}'", st, [])

/-- A parsed command envelope: either a batch of sub-envelopes or a single
command with module name (`""` when absent), action (`""` when absent) and
parameter dictionary, exactly the fields `handle_message` reads. -/
inductive Msg where
  | batch (cmds : List Msg)
  | cmd (modName action : String) (ps : Params)

/-- The unknown-module error text of `handle_message`. -/
def availableError (modName : String) (st : DaemonState M) : String :=
  let avail := toString (keysOf st.modules)
  s!"Unknown module '{modName}'. Available: {avail}"

mutual

/-- `TotemDaemon.handle_message` on a parsed envelope: batch, system
(no module), compound (`totem`), unknown module, or a module dispatch
under the global lock. -/
def handleMessage (ops : ModuleOps M) (st : DaemonState M) :
    Msg → Outcome (Response × DaemonState M × List Action)
  | .batch cmds =>
    match handleBatch ops st cmds with
    | .exn e => .exn e
    | .ok (results, st2, tr) =>
      .ok (Response.mk (results.all Response.getOk) none none (some results), st2, tr)
  | .cmd modName action ps =>
    if modName = "" then
      let res := handleSystem ops st action ps
      .ok (res.1, res.2, [])
    else if modName = "totem" then
      handleCompound ops st action ps
    else
      match List.lookup modName st.modules with
      | none => .ok (errResp (availableError modName st), st, [])
      | some m =>
        let res := ops.handleCommand m action ps
        .ok (res.1, {st with modules := updateKey modName res.2 st.modules},
             [Action.acquire, Action.hcall modName action ps, Action.release])

/-- `TotemDaemon._handle_batch`: execute the sub-envelopes sequentially in
input order, threading the daemon state, collecting responses and traces;
a raised exception aborts the batch (propagating to the connection
worker). -/
def handleBatch (ops : ModuleOps M) (st : DaemonState M) :
    List Msg → Outcome (List Response × DaemonState M × List Action)
  | [] => .ok ([], st, [])
  | c :: rest =>
    match handleMessage ops st c with
    | .exn e => .exn e
    | .ok (r, st1, tr1) =>
      match handleBatch ops st1 rest with
      | .exn e => .exn e
      | .ok (rs, st2, tr2) => .ok (r :: rs, st2, tr1 ++ tr2)

end

/-- The registry transformation of `TotemDaemon.init_modules`: call
`init()` on each discovered module in discovery order; a module whose
`init()` succeeds has the event callback wired and stays; a module whose
`init()` raises is evicted. -/
def initRegistry (ops : ModuleOps M) : List (String × M) → List (String × M)
  | [] => []
  | (n, m) :: rest =>
    match ops.initModule m with
    | .ok m2 => (n, ops.setEventCallback m2) :: initRegistry ops rest
    | .exn _e => initRegistry ops rest

/-- `TotemDaemon.init_modules` as a daemon-state transformation. -/
def initModules (ops : ModuleOps M) (st : DaemonState M) : DaemonState M :=
  {st with modules := initRegistry ops st.modules}

/-- Number of OpenClaw notification dispatches in a trace. -/
def dispatchCount : List Action → Nat
  | [] => 0
  | .notifyDispatch _ :: tr => dispatchCount tr + 1
  | _ :: tr => dispatchCount tr

/-- Whether an action is a `handle_command` invocation. -/
def Action.isHCall : Action → Bool
  | .hcall _ _ _ => true
  | _ => false

/-- Lock-discipline checker: scanning the trace with the lock-held flag,
every `handle_command` invocation must occur while the global lock is
held. -/
def lockedOk : Bool → List Action → Bool
  | _, [] => true
  | _, .acquire :: tr => lockedOk true tr
  | _, .release :: tr => lockedOk false tr
  | held, .hcall _ _ _ :: tr => held && lockedOk held tr
  | held, .notifyDispatch _ :: tr => lockedOk held tr

/-- Lock-state scanner: the lock-held flag after the trace, or `none` if
some `handle_command` invocation happened while the lock was free. -/
def lockedFrom : Bool → List Action → Option Bool
  | held, [] => some held
  | _, .acquire :: tr => lockedFrom true tr
  | _, .release :: tr => lockedFrom false tr
  | held, .hcall _ _ _ :: tr => if held then lockedFrom held tr else none
  | held, .notifyDispatch _ :: tr => lockedFrom held tr

/-- The module names targeted by `handle_command` invocations in a trace. -/
def hcallNames (tr : List Action) : List String :=
  tr.filterMap (fun a => match a with
    | .hcall n _ _ => some n
    | _ => none)

/-- The trace component of an outcome (empty for a raised exception). -/
def traceOf : Outcome (Response × DaemonState M × List Action) → List Action
  | .ok r => r.2.2
  | .exn _ => []

/-- One delivery of a sensor event to the pipeline: the arguments of the
`_on_event` upcall plus the two clock readings taken inside it. -/
structure Emission where
  moduleName : String
  eventType : String
  data : Params
  tEvent : Int
  tNow : Int
deriving DecidableEq, Repr

/-- Deliver a sequence of emissions to `_on_event`, threading the daemon
state and concatenating the traces. -/
def runEmissions (ops : ModuleOps M) (st : DaemonState M) :
    List Emission → DaemonState M × List Action
  | [] => (st, [])
  | e :: rest =>
    let r := onEvent ops st e.moduleName e.eventType e.data e.tEvent e.tNow
    let r2 := runEmissions ops r.1 rest
    (r2.1, r.2 ++ r2.2)

/-- The events constructed for a sequence of emissions, in emission
order. -/
def emittedEvents (es : List Emission) : List Event :=
  es.map (fun e => mkEvent e.moduleName e.eventType e.data e.tEvent)

/-- A concrete hardware module used to instantiate the parametric daemon
in witnesses: it records every command it receives, fails a command whose
action is `"fail"`, and fails `init()` when asked to. -/
structure TestMod where
  tag : String
  failInit : Bool
  log : List (String × Params)
deriving DecidableEq, Repr

/-- `ModuleOps` instance for `TestMod`. -/
def testOps : ModuleOps TestMod where
  handleCommand := fun m a p =>
    (if a = "fail" then Response.mk false (some "failed") none none
     else Response.mk true none (some (.modData p)) none,
     {m with log := m.log ++ [(a, p)]})
  getState := fun m => .ok [("tag", .vstr m.tag)]
  getCapabilities := fun _ => .ok []
  initModule := fun m => if m.failInit then .exn "init failed" else .ok m
  setEventCallback := fun m => m

/-- The last `k` elements of a list ( `l[-k:]` for a list longer than
`k`, the whole list otherwise). -/
def lastN (k : Nat) (l : List α) : List α := l.drop (l.length - k)

/-- Sequential batch execution, as the spec describes it: the `i`-th
response is the response of the `i`-th sub-envelope, evaluated in input
order with the daemon state threaded through. -/
inductive BatchExec (ops : ModuleOps M) :
    DaemonState M → List Msg → List Response → DaemonState M → List Action → Prop where
  | nil (st : DaemonState M) : BatchExec ops st [] [] st []
  | cons (st : DaemonState M) (c : Msg) (r : Response) (st1 : DaemonState M)
      (tr1 : List Action) (cs : List Msg) (rs : List Response)
      (st2 : DaemonState M) (tr2 : List Action) :
      handleMessage ops st c = .ok (r, st1, tr1) →
      BatchExec ops st1 cs rs st2 tr2 →
      BatchExec ops st (c :: cs) (r :: rs) st2 (tr1 ++ tr2)

/-- Witness fixtures: a face module, an lcd module, and a module whose
`init()` fails. -/
def faceM : TestMod := ⟨"face", false, []⟩

/-- Witness fixture: an lcd test module. -/
def lcdM : TestMod := ⟨"lcd", false, []⟩

/-- Witness fixture: a module whose `init()` raises. -/
def badM : TestMod := ⟨"bad", true, []⟩

/-- Witness fixture: an already-recorded event. -/
def evW : Event := mkEvent "touch" "touched" [] 3

/-- Witness fixture: a daemon with face and lcd modules registered, one
queued event, last notification at time 10 and the 5-second cooldown. -/
def stW : DaemonState TestMod := ⟨[("face", faceM), ("lcd", lcdM)], [evW], 10, 5, true, true⟩

/-- Witness fixture: a freshly discovered registry (one healthy module,
one whose `init()` fails) before `init_modules` runs. -/
def stDiscovered : DaemonState TestMod := ⟨[("face", faceM), ("bad", badM)], [], 0, 5, true, true⟩

theorem keysOf_updateKey (n : String) (m : M) (l : List (String × M)) :
    keysOf (updateKey n m l) = keysOf l := by
  induction l with
  | nil => rfl
  | cons kv rest ih =>
    obtain ⟨k, v⟩ := kv
    by_cases h : k = n <;> simp [updateKey, keysOf, h] at ih ⊢ <;> exact ih

theorem lookup_updateKey_ne (k n : String) (m : M) (l : List (String × M))
    (h : k ≠ n) : List.lookup k (updateKey n m l) = List.lookup k l := by
  induction l with
  | nil => rfl
  | cons kv rest ih =>
    obtain ⟨k2, v⟩ := kv
    by_cases h2 : k2 = n
    · subst h2
      simp [updateKey, List.lookup, beq_eq_false_iff_ne.mpr h]
    · simp only [updateKey, if_neg h2, List.lookup]
      by_cases h3 : k = k2 <;> simp [h3, ih]

theorem mem_keys_of_lookup {n : String} {m : M} {l : List (String × M)}
    (h : List.lookup n l = some m) : n ∈ keysOf l := by
  induction l with
  | nil => simp [List.lookup] at h
  | cons kv rest ih =>
    obtain ⟨k, v⟩ := kv
    by_cases h2 : n = k
    · simp [keysOf, h2]
    · simp only [List.lookup, beq_eq_false_iff_ne.mpr h2] at h
      simp [keysOf] at ih ⊢
      exact Or.inr (ih h)

theorem lookup_eq_none_of_not_mem {n : String} {l : List (String × M)}
    (h : n ∉ keysOf l) : List.lookup n l = none := by
  induction l with
  | nil => rfl
  | cons kv rest ih =>
    obtain ⟨k, v⟩ := kv
    simp [keysOf] at h
    simp only [List.lookup, beq_eq_false_iff_ne.mpr h.1]
    exact ih (by simp [keysOf, h.2])

theorem dispatchCount_append (t1 t2 : List Action) :
    dispatchCount (t1 ++ t2) = dispatchCount t1 + dispatchCount t2 := by
  induction t1 with
  | nil => simp [dispatchCount]
  | cons a rest ih => cases a <;> simp [dispatchCount, ih] <;> omega

theorem lockedFrom_append (b : Bool) (t1 t2 : List Action) :
    lockedFrom b (t1 ++ t2) =
      (lockedFrom b t1).bind (fun b1 => lockedFrom b1 t2) := by
  induction t1 generalizing b with
  | nil => simp [lockedFrom]
  | cons a rest ih =>
    cases a <;> simp only [List.cons_append, lockedFrom] <;> try exact ih _
    split
    · exact ih _
    · simp

theorem lockedOk_of_lockedFrom {b b2 : Bool} {tr : List Action}
    (h : lockedFrom b tr = some b2) : lockedOk b tr = true := by
  induction tr generalizing b b2 with
  | nil => rfl
  | cons a rest ih =>
    cases a with
    | acquire =>
      simp only [lockedFrom] at h
      simp only [lockedOk]
      exact ih h
    | release =>
      simp only [lockedFrom] at h
      simp only [lockedOk]
      exact ih h
    | hcall n act ps2 =>
      simp only [lockedFrom] at h
      split at h
      · rename_i hb
        subst hb
        simp only [lockedOk, Bool.true_and]
        exact ih h
      · cases h
    | notifyDispatch e =>
      simp only [lockedFrom] at h
      simp only [lockedOk]
      exact ih h

/-- C6: for every state of the event queue, an `events` read with a truthy
`peek` flag returns all currently queued events and leaves the daemon
state exactly unchanged, while an `events` read with a falsy or absent
`peek` flag returns the same events and leaves the queue empty (and all
other state unchanged). -/
theorem events_peek_preserves_drain_clears (ops : ModuleOps M) (st : DaemonState M)
    (ps : Params) :
    ((pget ps "peek" (.vbool false)).truthy = true →
      handleSystem ops st "events" ps =
        (okResp (.events st.events st.events.length), st)) ∧
    ((pget ps "peek" (.vbool false)).truthy = false →
      handleSystem ops st "events" ps =
        (okResp (.events st.events st.events.length), {st with events := []})) := by
  refine ⟨fun h => ?_, fun h => ?_⟩ <;> simp [handleSystem, getEvents, h]

/-- Witness for C6 at a concrete daemon state with one queued event. -/
theorem events_peek_preserves_drain_clears_witness :
    (handleSystem testOps stW "events" [("peek", Value.vbool true)] =
      (okResp (.events stW.events stW.events.length), stW)) ∧
    (handleSystem testOps stW "events" [] =
      (okResp (.events stW.events stW.events.length), {stW with events := []})) :=
  ⟨(events_peek_preserves_drain_clears testOps stW _).1 (by decide),
   (events_peek_preserves_drain_clears testOps stW _).2 (by decide)⟩

/-- C7: routing a valid envelope to an unregistered module name (not the
reserved `totem` identifier, not the system route) returns the
`{ok: false, error}` response naming the available modules, leaves the
daemon state unchanged, and invokes no module's `handle_command` (the
trace is empty). -/
theorem unknown_module_no_effect (ops : ModuleOps M) (st : DaemonState M)
    (modName action : String) (ps : Params)
    (h1 : ¬ modName = "") (h2 : ¬ modName = "totem")
    (h3 : List.lookup modName st.modules = none) :
    handleMessage ops st (.cmd modName action ps) =
      .ok (errResp (availableError modName st), st, []) := by
  simp [handleMessage, h1, h2, h3]

/-- Witness for C7: the module name `bogus` against the face+lcd
registry. -/
theorem unknown_module_no_effect_witness :
    handleMessage testOps stW (.cmd "bogus" "x" []) =
      .ok (errResp (availableError "bogus" stW), stW, []) :=
  unknown_module_no_effect testOps stW "bogus" "x" [] (by decide) (by decide) rfl

theorem onEvent_queue (ops : ModuleOps M) (st : DaemonState M) (n t : String)
    (d : Params) (tE tN : Int) :
    (onEvent ops st n t d tE tN).1.events =
      trimQueue (st.events ++ [mkEvent n t d tE]) := by
  simp only [onEvent]
  repeat' split
  all_goals rfl

theorem trim_lastN (E : List Event) (e : Event) :
    trimQueue (lastN 100 E ++ [e]) = lastN 100 (E ++ [e]) := by
  have hlen : (lastN 100 E).length = E.length - (E.length - 100) := by
    simp [lastN]
  by_cases h : E.length < 100
  · have h0 : E.length - 100 = 0 := Nat.sub_eq_zero_of_le (by omega)
    have hE : lastN 100 E = E := by rw [lastN, h0, List.drop_zero]
    have h1 : (E ++ [e]).length - 100 = 0 := by
      simp only [List.length_append, List.length_cons, List.length_nil]
      omega
    have hE2 : lastN 100 (E ++ [e]) = E ++ [e] := by rw [lastN, h1, List.drop_zero]
    have hlt : ¬ (E ++ [e]).length > 100 := by
      simp only [List.length_append, List.length_cons, List.length_nil]
      omega
    rw [hE, hE2, trimQueue, if_neg hlt]
  · push_neg at h
    have h100 : (lastN 100 E).length = 100 := by rw [hlen]; omega
    have hgt : (lastN 100 E ++ [e]).length > 100 := by
      simp only [List.length_append, h100, List.length_cons, List.length_nil]
      omega
    have hidx : (lastN 100 E ++ [e]).length - 100 = 1 := by
      simp only [List.length_append, h100, List.length_cons, List.length_nil]
    have hidx2 : (E ++ [e]).length - 100 = E.length + 1 - 100 := by
      simp only [List.length_append, List.length_cons, List.length_nil]
    have ha : (1 : ℕ) ≤ (List.drop (E.length - 100) E).length := by
      simp only [List.length_drop]
      omega
    have hb : E.length + 1 - 100 ≤ E.length := by omega
    rw [trimQueue, if_pos hgt, hidx]
    conv_rhs => rw [lastN, hidx2]
    rw [lastN, List.drop_append_of_le_length ha, List.drop_append_of_le_length hb,
      List.drop_drop]
    have heq : E.length - 100 + 1 = E.length + 1 - 100 := by omega
    rw [heq]

theorem runEmissions_queue (ops : ModuleOps M) (es : List Emission) :
    ∀ (st : DaemonState M) (E : List Event), st.events = lastN 100 E →
      (runEmissions ops st es).1.events = lastN 100 (E ++ emittedEvents es) := by
  induction es with
  | nil => intro st E h; simpa [runEmissions, emittedEvents] using h
  | cons e rest ih =>
    intro st E h
    simp only [runEmissions]
    rw [ih _ (E ++ [mkEvent e.moduleName e.eventType e.data e.tEvent])
      (by rw [onEvent_queue, h, trim_lastN]), emittedEvents]
    simp [emittedEvents, List.append_assoc]

/-- C5: delivering any sequence of `n` emissions to the event pipeline of
a freshly started daemon leaves the queue holding exactly the most recent
`min n 100` emitted events, in emission order; in particular the queue
never holds more than 100 events. -/
theorem event_queue_bounded_fifo (ops : ModuleOps M) (ne ob : Bool)
    (es : List Emission) :
    (runEmissions ops (initState M ne ob) es).1.events =
      lastN 100 (emittedEvents es) ∧
    (runEmissions ops (initState M ne ob) es).1.events.length =
      min es.length 100 := by
  have h := runEmissions_queue ops es (initState M ne ob) [] rfl
  simp only [List.nil_append] at h
  refine ⟨h, ?_⟩
  rw [h]
  simp only [lastN, List.length_drop, emittedEvents, List.length_map]
  omega

theorem handleBatch_exec (ops : ModuleOps M) (cmds : List Msg) :
    ∀ (st : DaemonState M) (rs : List Response) (st2 : DaemonState M) (tr : List Action),
      handleBatch ops st cmds = .ok (rs, st2, tr) →
      rs.length = cmds.length ∧ BatchExec ops st cmds rs st2 tr := by
  induction cmds with
  | nil =>
    intro st rs st2 tr h
    simp only [handleBatch, Outcome.ok.injEq, Prod.mk.injEq] at h
    obtain ⟨rfl, rfl, rfl⟩ := h
    exact ⟨rfl, BatchExec.nil st⟩
  | cons c rest ih =>
    intro st rs st2 tr h
    simp only [handleBatch] at h
    cases hm : handleMessage ops st c with
    | exn e => rw [hm] at h; cases h
    | ok trip =>
      obtain ⟨r, st1, tr1⟩ := trip
      rw [hm] at h
      dsimp only at h
      cases hb : handleBatch ops st1 rest with
      | exn e => rw [hb] at h; cases h
      | ok trip2 =>
        obtain ⟨rs2, stB, trB⟩ := trip2
        rw [hb] at h
        dsimp only at h
        simp only [Outcome.ok.injEq, Prod.mk.injEq] at h
        obtain ⟨rfl, rfl, rfl⟩ := h
        obtain ⟨ihlen, ihexec⟩ := ih st1 rs2 stB trB hb
        exact ⟨by simp [ihlen], BatchExec.cons _ _ _ _ _ _ _ _ _ hm ihexec⟩

/-- C3: a batch envelope of `N` sub-envelopes yields a response whose
`results` field is a list of length `N`, whose `i`-th entry is the
response of the `i`-th sub-envelope executed sequentially in input order
(`BatchExec`), and whose `ok` field is the AND of all sub-responses'
`ok` values. -/
theorem batch_results_ordered_and (ops : ModuleOps M) (st : DaemonState M)
    (cmds : List Msg) (resp : Response) (st2 : DaemonState M) (tr : List Action)
    (h : handleMessage ops st (.batch cmds) = .ok (resp, st2, tr)) :
    ∃ rs, resp = Response.mk (rs.all Response.getOk) none none (some rs) ∧
      rs.length = cmds.length ∧ BatchExec ops st cmds rs st2 tr := by
  simp only [handleMessage] at h
  cases hb : handleBatch ops st cmds with
  | exn e => rw [hb] at h; cases h
  | ok trip =>
    obtain ⟨rs, stB, trB⟩ := trip
    rw [hb] at h
    simp only [Outcome.ok.injEq, Prod.mk.injEq] at h
    obtain ⟨hr, rfl, rfl⟩ := h
    obtain ⟨hlen, hexec⟩ := handleBatch_exec ops cmds st rs _ _ hb
    exact ⟨rs, hr.symm, hlen, hexec⟩

/-- Witness for C3: the batch `[ping, unknown-module]` produces two
ordered results and `ok = false`. -/
theorem batch_results_ordered_and_witness :
    ∃ rs, (Response.mk false none none
        (some [okResp .pong, errResp (availableError "bogus" stW)]) : Response) =
          Response.mk (rs.all Response.getOk) none none (some rs) ∧
      rs.length = 2 ∧
      BatchExec testOps stW [Msg.cmd "" "ping" [], Msg.cmd "bogus" "x" []] rs stW [] :=
  batch_results_ordered_and testOps stW [Msg.cmd "" "ping" [], Msg.cmd "bogus" "x" []]
    _ _ _ rfl

/-- C10: the `duration` parameter of a compound `express` command is
parsed but has no effect: for any two values accepted by the numeric
conversion, the response, the resulting daemon state and the commands
sent to the face and lcd modules are identical. -/
theorem express_duration_no_influence (ops : ModuleOps M) (st : DaemonState M)
    (ps : Params) (v1 v2 : Value) (n1 n2 : Int)
    (h1 : pyFloat v1 = .ok n1) (h2 : pyFloat v2 = .ok n2) :
    handleCompound ops st "express" (("duration", v1) :: ps) =
      handleCompound ops st "express" (("duration", v2) :: ps) := by
  simp [handleCompound, pget, List.lookup, h1, h2]

/-- Witness for C10 at durations 3 and 99. -/
theorem express_duration_no_influence_witness :
    handleCompound testOps stW "express" [("duration", Value.vint 3)] =
      handleCompound testOps stW "express" [("duration", Value.vint 99)] :=
  express_duration_no_influence testOps stW [] (Value.vint 3) (Value.vint 99) 3 99 rfl rfl

theorem onEvent_skip (ops : ModuleOps M) (st : DaemonState M) (n t : String)
    (d : Params) (tE tN : Int)
    (h : t ≠ "touched" ∨ tN - st.lastNotifyTime < st.notifyCooldown) :
    onEvent ops st n t d tE tN =
      ({st with events := trimQueue (st.events ++ [mkEvent n t d tE])}, []) := by
  rcases h with h | h
  · simp [onEvent, h]
  · by_cases ht : t = "touched"
    · subst ht
      simp [onEvent, not_le.mpr h]
    · simp [onEvent, ht]

theorem onEvent_fire (ops : ModuleOps M) (st : DaemonState M) (n t : String)
    (d : Params) (tE tN : Int) (ht : t = "touched")
    (hel : st.notifyCooldown ≤ tN - st.lastNotifyTime) :
    (onEvent ops st n t d tE tN).1.lastNotifyTime = tN ∧
    (onEvent ops st n t d tE tN).1.notifyCooldown = st.notifyCooldown ∧
    (onEvent ops st n t d tE tN).1.notifyEnabled = st.notifyEnabled ∧
    (onEvent ops st n t d tE tN).1.openclawBin = st.openclawBin ∧
    dispatchCount (onEvent ops st n t d tE tN).2 =
      (if st.notifyEnabled && st.openclawBin then 1 else 0) := by
  subst ht
  simp only [onEvent, if_pos rfl, if_pos hel]
  cases hf : List.lookup "face" st.modules with
  | none =>
    simp only [hf]
    cases hl : List.lookup "lcd" st.modules <;>
      by_cases hn : st.notifyEnabled && st.openclawBin <;>
        simp [hl, hn, dispatchCount, dispatchCount_append]
  | some m =>
    simp only [hf]
    have hlu : List.lookup "lcd"
        (updateKey "face"
          (ops.handleCommand m "expression" [("name", Value.vstr "surprised")]).2
          st.modules) = List.lookup "lcd" st.modules :=
      lookup_updateKey_ne _ _ _ _ (by decide)
    cases hl : List.lookup "lcd" st.modules <;>
      by_cases hn : st.notifyEnabled && st.openclawBin <;>
        simp [hlu, hl, hn, dispatchCount, dispatchCount_append]

theorem runEmissions_suppressed (ops : ModuleOps M) (es : List Emission) :
    ∀ st : DaemonState M,
      (∀ e ∈ es, e.tNow - st.lastNotifyTime < st.notifyCooldown) →
      (runEmissions ops st es).2 = [] ∧
      (runEmissions ops st es).1.lastNotifyTime = st.lastNotifyTime ∧
      (runEmissions ops st es).1.notifyCooldown = st.notifyCooldown := by
  induction es with
  | nil => intro st _; exact ⟨rfl, rfl, rfl⟩
  | cons e rest ih =>
    intro st h
    have hskip := onEvent_skip ops st e.moduleName e.eventType e.data e.tEvent e.tNow
      (Or.inr (h e (List.mem_cons_self e rest)))
    have hrest := ih {st with events := trimQueue (st.events ++
        [mkEvent e.moduleName e.eventType e.data e.tEvent])}
      (fun e2 he2 => h e2 (List.mem_cons_of_mem e he2))
    simp only [runEmissions, hskip]
    exact ⟨by simp [hrest.1], hrest.2.1, hrest.2.2⟩

/-- C4: once an external notification has been dispatched for a
qualifying (`touched`) event, any further emissions whose clock readings
fall inside the 5-second cooldown window produce no further dispatch:
the first qualifying event (cooldown elapsed, notification enabled,
binary present) plus any in-window sequence yields exactly one OpenClaw
dispatch in the whole trace. -/
theorem cooldown_single_dispatch (ops : ModuleOps M) (st : DaemonState M)
    (e1 : Emission) (es : List Emission)
    (ht : e1.eventType = "touched")
    (hel : st.notifyCooldown ≤ e1.tNow - st.lastNotifyTime)
    (hen : st.notifyEnabled = true) (hbin : st.openclawBin = true)
    (hwin : ∀ e ∈ es, e.tNow - e1.tNow < st.notifyCooldown) :
    dispatchCount (runEmissions ops st (e1 :: es)).2 = 1 := by
  simp only [runEmissions, dispatchCount_append]
  obtain ⟨hlast, hcool, _hen2, _hbin2, hdisp⟩ :=
    onEvent_fire ops st e1.moduleName e1.eventType e1.data e1.tEvent e1.tNow ht hel
  have hsup := runEmissions_suppressed ops es
    (onEvent ops st e1.moduleName e1.eventType e1.data e1.tEvent e1.tNow).1
    (fun e he => by rw [hlast, hcool]; exact hwin e he)
  rw [hsup.1, hdisp, hen, hbin]
  simp [dispatchCount]

/-- Witness for C4: from the face+lcd daemon (last notification at 10,
cooldown 5), a touched event at 20 followed by one at 23 dispatches
exactly once. -/
theorem cooldown_single_dispatch_witness :
    dispatchCount (runEmissions testOps stW
      [⟨"touch", "touched", [], 20, 20⟩, ⟨"touch", "touched", [], 23, 23⟩]).2 = 1 :=
  cooldown_single_dispatch testOps stW ⟨"touch", "touched", [], 20, 20⟩
    [⟨"touch", "touched", [], 23, 23⟩] rfl (by decide) rfl rfl (by decide)

/-- C1 counterexample: with a face module registered and the cooldown not
yet elapsed (last notification at 10, event at 12, cooldown 5), a
qualifying `touched` event produces an empty reaction trace — no
`handle_command` reaches the face or lcd module, so the immediate local
reaction did not fire even though the event qualified. -/
theorem local_reaction_not_cooldown_free :
    (List.lookup "face" stW.modules).isSome = true ∧
    (onEvent testOps stW "touch" "touched" [("pin", Value.vint 17)] 12 12).2 = [] :=
  ⟨rfl, rfl⟩

/-- C1 (amended): the immediate local reaction is subject to the same
cooldown as the external notification dispatch: for a `touched` event it
fires (a `handle_command` appears in the trace) exactly when the cooldown
has elapsed, the event is recorded in the queue regardless, and a
dispatch can likewise occur only when the cooldown has elapsed. -/
theorem local_reaction_fires_iff_cooldown (ops : ModuleOps M) (st : DaemonState M)
    (n : String) (d : Params) (tE tN : Int)
    (hface : (List.lookup "face" st.modules).isSome = true) :
    ((onEvent ops st n "touched" d tE tN).2.any Action.isHCall =
      decide (st.notifyCooldown ≤ tN - st.lastNotifyTime)) ∧
    (onEvent ops st n "touched" d tE tN).1.events =
      trimQueue (st.events ++ [mkEvent n "touched" d tE]) ∧
    (dispatchCount (onEvent ops st n "touched" d tE tN).2 = 0 ∨
      st.notifyCooldown ≤ tN - st.lastNotifyTime) := by
  refine ⟨?_, onEvent_queue ops st n "touched" d tE tN, ?_⟩
  · by_cases hel : st.notifyCooldown ≤ tN - st.lastNotifyTime
    · rw [decide_eq_true hel]
      obtain ⟨m, hf⟩ := Option.isSome_iff_exists.mp hface
      simp only [onEvent, if_pos rfl, if_pos hel, hf]
      have hlu : List.lookup "lcd"
          (updateKey "face"
            (ops.handleCommand m "expression" [("name", Value.vstr "surprised")]).2
            st.modules) = List.lookup "lcd" st.modules :=
        lookup_updateKey_ne _ _ _ _ (by decide)
      cases hl : List.lookup "lcd" st.modules <;>
        by_cases hn : st.notifyEnabled && st.openclawBin <;>
          simp [hlu, hl, hn, Action.isHCall]
    · rw [onEvent_skip ops st n "touched" d tE tN (Or.inr (not_le.mp hel))]
      simp [decide_eq_false hel]
  · by_cases hel : st.notifyCooldown ≤ tN - st.lastNotifyTime
    · exact Or.inr hel
    · rw [onEvent_skip ops st n "touched" d tE tN (Or.inr (not_le.mp hel))]
      exact Or.inl rfl

/-- Witness for C1 (amended) at the face+lcd daemon: reaction suppressed
at clock 12 (cooldown pending), queue still extended. -/
theorem local_reaction_fires_iff_cooldown_witness :
    ((onEvent testOps stW "touch" "touched" [] 12 12).2.any Action.isHCall =
      decide (stW.notifyCooldown ≤ 12 - stW.lastNotifyTime)) ∧
    (onEvent testOps stW "touch" "touched" [] 12 12).1.events =
      trimQueue (stW.events ++ [mkEvent "touch" "touched" [] 12]) ∧
    (dispatchCount (onEvent testOps stW "touch" "touched" [] 12 12).2 = 0 ∨
      stW.notifyCooldown ≤ 12 - stW.lastNotifyTime) :=
  local_reaction_fires_iff_cooldown testOps stW "touch" [] 12 12 rfl

/-- C8 counterexample: with an lcd module registered, an `express` command
whose message is the empty string sends no `write` command to the lcd
module at all — the only `handle_command` issued targets the face — so
"if the lcd module is registered, the given message is written to it"
fails at `message = ""`. -/
theorem express_empty_message_skips_lcd :
    (List.lookup "lcd" stW.modules).isSome = true ∧
    hcallNames (traceOf (handleCompound testOps stW "express"
      [("emotion", Value.vstr "happy"), ("message", Value.vstr "")])) = ["face"] :=
  ⟨rfl, rfl⟩

/-- C8 (amended): for a compound `express` command with string parameters
`{emotion, message}`: the run never raises; if the face module is
registered its expression is set to the given emotion; if the lcd module
is registered AND the message is non-empty, the first 32 characters of
the message are written to it as two 16-character lines; a missing module
— or, for the lcd step, an empty message — is simply skipped; and the
response's `ok` is the AND of the sub-results that were executed. -/
theorem express_best_effort (ops : ModuleOps M) (st : DaemonState M) (e s : String) :
    ∃ r st2 tr,
      handleCompound ops st "express" [("emotion", .vstr e), ("message", .vstr s)] =
        .ok (r, st2, tr) ∧
      (∀ m, List.lookup "face" st.modules = some m →
        Action.hcall "face" "expression" [("name", .vstr e)] ∈ tr) ∧
      (∀ m, List.lookup "lcd" st.modules = some m → s ≠ "" →
        Action.hcall "lcd" "write"
          [("line1", .vstr (s.take 16)),
           ("line2", .vstr (if s.length > 16 then (s.drop 16).take 16 else ""))] ∈ tr) ∧
      (List.lookup "face" st.modules = none → "face" ∉ hcallNames tr) ∧
      ((List.lookup "lcd" st.modules = none ∨ s = "") → "lcd" ∉ hcallNames tr) ∧
      r.getOk =
        ((match List.lookup "face" st.modules with
          | some m => (ops.handleCommand m "expression" [("name", .vstr e)]).1.getOk
          | none => true) &&
         (match List.lookup "lcd" st.modules with
          | some m =>
            if s = "" then true
            else (ops.handleCommand m "write"
              [("line1", .vstr (s.take 16)),
               ("line2", .vstr (if s.length > 16 then (s.drop 16).take 16 else ""))]).1.getOk
          | none => true)) := by
  have hdur : pget [("emotion", Value.vstr e), ("message", Value.vstr s)] "duration"
      (.vint 0) = .vint 0 := by simp [pget, List.lookup]
  have hemo : pget [("emotion", Value.vstr e), ("message", Value.vstr s)] "emotion"
      (.vstr "neutral") = .vstr e := by simp [pget, List.lookup]
  have hmsg : pget [("emotion", Value.vstr e), ("message", Value.vstr s)] "message"
      (.vstr "") = .vstr s := by simp [pget, List.lookup]
  simp only [handleCompound, if_pos rfl, hdur, hemo, hmsg, pyFloat]
  cases hf : List.lookup "face" st.modules with
  | none =>
    cases hl : List.lookup "lcd" st.modules with
    | none =>
      simp only [hf, hl]
      refine ⟨_, _, _, rfl, ?_, ?_, ?_, ?_, ?_⟩ <;>
        simp [hf, hl, hcallNames, Response.getOk]
    | some ml =>
      by_cases hs : s = ""
      · subst hs
        have htr : (Value.vstr "").truthy = false := by decide
        simp only [hf, hl, htr, Bool.false_eq_true, if_false]
        refine ⟨_, _, _, rfl, ?_, ?_, ?_, ?_, ?_⟩ <;>
          simp [hf, hl, hcallNames, Response.getOk]
      · have htr : (Value.vstr s).truthy = true := by
          simp [Value.truthy, hs]
        simp only [hf, hl, htr, if_true]
        refine ⟨_, _, _, rfl, ?_, ?_, ?_, ?_, ?_⟩ <;>
          simp [hf, hl, hs, hcallNames, Response.getOk]
  | some mf =>
    have hlu : List.lookup "lcd"
        (updateKey "face" (ops.handleCommand mf "expression" [("name", Value.vstr e)]).2
          st.modules) = List.lookup "lcd" st.modules :=
      lookup_updateKey_ne _ _ _ _ (by decide)
    cases hl : List.lookup "lcd" st.modules with
    | none =>
      simp only [hf, hlu, hl]
      refine ⟨_, _, _, rfl, ?_, ?_, ?_, ?_, ?_⟩ <;>
        simp [hf, hl, hcallNames, Response.getOk]
    | some ml =>
      by_cases hs : s = ""
      · subst hs
        have htr : (Value.vstr "").truthy = false := by decide
        simp only [hf, hlu, hl, htr, Bool.false_eq_true, if_false]
        refine ⟨_, _, _, rfl, ?_, ?_, ?_, ?_, ?_⟩ <;>
          simp [hf, hl, hcallNames, Response.getOk]
      · have htr : (Value.vstr s).truthy = true := by
          simp [Value.truthy, hs]
        simp only [hf, hlu, hl, htr, if_true]
        refine ⟨_, _, _, rfl, ?_, ?_, ?_, ?_, ?_⟩ <;>
          simp [hf, hl, hs, hcallNames, Response.getOk]

/-- Witness for C8 (amended) at the face+lcd daemon with a 20-character
message. -/
theorem express_best_effort_witness :
    ∃ r st2 tr,
      handleCompound testOps stW "express"
        [("emotion", Value.vstr "happy"), ("message", Value.vstr "hello world brave new")] =
        .ok (r, st2, tr) ∧
      (∀ m, List.lookup "face" stW.modules = some m →
        Action.hcall "face" "expression" [("name", Value.vstr "happy")] ∈ tr) ∧
      (∀ m, List.lookup "lcd" stW.modules = some m → "hello world brave new" ≠ "" →
        Action.hcall "lcd" "write"
          [("line1", Value.vstr ("hello world brave new".take 16)),
           ("line2", Value.vstr (if "hello world brave new".length > 16 then
             ("hello world brave new".drop 16).take 16 else ""))] ∈ tr) ∧
      (List.lookup "face" stW.modules = none → "face" ∉ hcallNames tr) ∧
      ((List.lookup "lcd" stW.modules = none ∨ "hello world brave new" = "") →
        "lcd" ∉ hcallNames tr) ∧
      r.getOk =
        ((match List.lookup "face" stW.modules with
          | some m => (testOps.handleCommand m "expression"
              [("name", Value.vstr "happy")]).1.getOk
          | none => true) &&
         (match List.lookup "lcd" stW.modules with
          | some m =>
            if "hello world brave new" = "" then true
            else (testOps.handleCommand m "write"
              [("line1", Value.vstr ("hello world brave new".take 16)),
               ("line2", Value.vstr (if "hello world brave new".length > 16 then
                 ("hello world brave new".drop 16).take 16 else ""))]).1.getOk
          | none => true)) :=
  express_best_effort testOps stW "happy" "hello world brave new"

theorem handleSystem_modules (ops : ModuleOps M) (st : DaemonState M)
    (a : String) (ps : Params) : (handleSystem ops st a ps).2.modules = st.modules := by
  simp only [handleSystem, getEvents]
  repeat' split
  all_goals rfl

theorem handleCompound_inv (ops : ModuleOps M) (st : DaemonState M)
    (a : String) (ps : Params) (r : Response) (st2 : DaemonState M) (tr : List Action)
    (h : handleCompound ops st a ps = .ok (r, st2, tr)) :
    keysOf st2.modules = keysOf st.modules ∧
    (∀ n ∈ hcallNames tr, n ∈ keysOf st.modules) ∧
    lockedFrom false tr = some false := by
  by_cases ha : a = "express"
  · subst ha
    simp only [handleCompound, if_pos rfl] at h
    cases hdv : pyFloat (pget ps "duration" (Value.vint 0)) with
    | exn e2 => rw [hdv] at h; cases h
    | ok dn =>
      rw [hdv] at h
      dsimp only at h
      cases hf : List.lookup "face" st.modules with
      | none =>
        rw [hf] at h
        dsimp only at h
        cases hl : List.lookup "lcd" st.modules with
        | none =>
          rw [hl] at h
          dsimp only at h
          simp only [if_true, Outcome.ok.injEq, Prod.mk.injEq] at h
          obtain ⟨_, rfl, rfl⟩ := h
          exact ⟨rfl, by simp [hcallNames], rfl⟩
        | some ml =>
          rw [hl] at h
          dsimp only at h
          by_cases htr : (pget ps "message" (Value.vstr "")).truthy = true
          · rw [if_pos htr] at h
            cases hm : pget ps "message" (Value.vstr "") with
            | vstr s =>
              rw [hm] at h
              dsimp only at h
              simp only [if_true, Outcome.ok.injEq, Prod.mk.injEq] at h
              obtain ⟨_, rfl, rfl⟩ := h
              refine ⟨by simp [keysOf_updateKey], ?_, by simp [lockedFrom]⟩
              intro n hn
              simp [hcallNames] at hn
              subst hn
              exact mem_keys_of_lookup hl
            | vint n2 => rw [hm] at h; dsimp only at h; cases h
            | vbool b => rw [hm] at h; dsimp only at h; cases h
          · rw [if_neg htr] at h
            dsimp only at h
            simp only [if_true, Outcome.ok.injEq, Prod.mk.injEq] at h
            obtain ⟨_, rfl, rfl⟩ := h
            exact ⟨rfl, by simp [hcallNames], rfl⟩
      | some mf =>
        rw [hf] at h
        dsimp only at h
        have hlu : List.lookup "lcd"
            (updateKey "face"
              (ops.handleCommand mf "expression"
                [("name", pget ps "emotion" (Value.vstr "neutral"))]).2 st.modules) =
            List.lookup "lcd" st.modules :=
          lookup_updateKey_ne _ _ _ _ (by decide)
        rw [hlu] at h
        cases hl : List.lookup "lcd" st.modules with
        | none =>
          rw [hl] at h
          dsimp only at h
          simp only [if_true, Outcome.ok.injEq, Prod.mk.injEq] at h
          obtain ⟨_, rfl, rfl⟩ := h
          refine ⟨by simp [keysOf_updateKey], ?_, by simp [lockedFrom]⟩
          intro n hn
          simp [hcallNames] at hn
          subst hn
          exact mem_keys_of_lookup hf
        | some ml =>
          rw [hl] at h
          dsimp only at h
          by_cases htr : (pget ps "message" (Value.vstr "")).truthy = true
          · rw [if_pos htr] at h
            cases hm : pget ps "message" (Value.vstr "") with
            | vstr s =>
              rw [hm] at h
              dsimp only at h
              simp only [if_true, Outcome.ok.injEq, Prod.mk.injEq] at h
              obtain ⟨_, rfl, rfl⟩ := h
              refine ⟨by simp [keysOf_updateKey], ?_, by simp [lockedFrom]⟩
              intro n hn
              simp [hcallNames] at hn
              rcases hn with rfl | rfl
              · exact mem_keys_of_lookup hf
              · exact mem_keys_of_lookup hl
            | vint n2 => rw [hm] at h; dsimp only at h; cases h
            | vbool b => rw [hm] at h; dsimp only at h; cases h
          · rw [if_neg htr] at h
            dsimp only at h
            simp only [if_true, Outcome.ok.injEq, Prod.mk.injEq] at h
            obtain ⟨_, rfl, rfl⟩ := h
            refine ⟨by simp [keysOf_updateKey], ?_, by simp [lockedFrom]⟩
            intro n hn
            simp [hcallNames] at hn
            subst hn
            exact mem_keys_of_lookup hf
  · simp only [handleCompound, if_neg ha, Outcome.ok.injEq, Prod.mk.injEq] at h
    obtain ⟨_, rfl, rfl⟩ := h
    exact ⟨rfl, by simp [hcallNames], rfl⟩

theorem hcallNames_append (t1 t2 : List Action) :
    hcallNames (t1 ++ t2) = hcallNames t1 ++ hcallNames t2 := by
  simp [hcallNames, List.filterMap_append]

mutual

theorem handleMessage_inv (ops : ModuleOps M) (st : DaemonState M) (msg : Msg)
    (r : Response) (st2 : DaemonState M) (tr : List Action)
    (h : handleMessage ops st msg = .ok (r, st2, tr)) :
    keysOf st2.modules = keysOf st.modules ∧
    (∀ n ∈ hcallNames tr, n ∈ keysOf st.modules) ∧
    lockedFrom false tr = some false := by
  cases msg with
  | batch cmds =>
    simp only [handleMessage] at h
    cases hb : handleBatch ops st cmds with
    | exn e => rw [hb] at h; cases h
    | ok trip =>
      obtain ⟨rs, stB, trB⟩ := trip
      rw [hb] at h
      dsimp only at h
      simp only [Outcome.ok.injEq, Prod.mk.injEq] at h
      obtain ⟨_, rfl, rfl⟩ := h
      exact handleBatch_inv ops st cmds rs _ _ hb
  | cmd modName action ps =>
    by_cases h1 : modName = ""
    · simp only [handleMessage, if_pos h1] at h
      simp only [Outcome.ok.injEq, Prod.mk.injEq] at h
      obtain ⟨_, rfl, rfl⟩ := h
      refine ⟨by rw [handleSystem_modules], by simp [hcallNames], rfl⟩
    · by_cases h2 : modName = "totem"
      · simp only [handleMessage, if_neg h1, if_pos h2] at h
        exact handleCompound_inv ops st action ps r st2 tr h
      · simp only [handleMessage, if_neg h1, if_neg h2] at h
        cases hm : List.lookup modName st.modules with
        | none =>
          rw [hm] at h
          dsimp only at h
          simp only [Outcome.ok.injEq, Prod.mk.injEq] at h
          obtain ⟨_, rfl, rfl⟩ := h
          exact ⟨rfl, by simp [hcallNames], rfl⟩
        | some m =>
          rw [hm] at h
          dsimp only at h
          simp only [Outcome.ok.injEq, Prod.mk.injEq] at h
          obtain ⟨_, rfl, rfl⟩ := h
          refine ⟨by simp [keysOf_updateKey], ?_, by simp [lockedFrom]⟩
          intro n hn
          simp [hcallNames] at hn
          subst hn
          exact mem_keys_of_lookup hm

theorem handleBatch_inv (ops : ModuleOps M) (st : DaemonState M) (cmds : List Msg)
    (rs : List Response) (st2 : DaemonState M) (tr : List Action)
    (h : handleBatch ops st cmds = .ok (rs, st2, tr)) :
    keysOf st2.modules = keysOf st.modules ∧
    (∀ n ∈ hcallNames tr, n ∈ keysOf st.modules) ∧
    lockedFrom false tr = some false := by
  cases cmds with
  | nil =>
    simp only [handleBatch, Outcome.ok.injEq, Prod.mk.injEq] at h
    obtain ⟨_, rfl, rfl⟩ := h
    exact ⟨rfl, by simp [hcallNames], rfl⟩
  | cons c rest =>
    simp only [handleBatch] at h
    cases hm : handleMessage ops st c with
    | exn e => rw [hm] at h; cases h
    | ok trip =>
      obtain ⟨r1, st1, tr1⟩ := trip
      rw [hm] at h
      dsimp only at h
      cases hb : handleBatch ops st1 rest with
      | exn e => rw [hb] at h; cases h
      | ok trip2 =>
        obtain ⟨rs2, stB, trB⟩ := trip2
        rw [hb] at h
        dsimp only at h
        simp only [Outcome.ok.injEq, Prod.mk.injEq] at h
        obtain ⟨_, rfl, rfl⟩ := h
        obtain ⟨k1, n1, l1⟩ := handleMessage_inv ops st c r1 st1 tr1 hm
        obtain ⟨k2, n2, l2⟩ := handleBatch_inv ops st1 rest rs2 stB trB hb
        refine ⟨k2.trans k1, ?_, ?_⟩
        · intro n hn
          rw [hcallNames_append, List.mem_append] at hn
          rcases hn with hn | hn
          · exact n1 n hn
          · rw [← k1]
            exact n2 n hn
        · rw [lockedFrom_append, l1]
          exact l2

end

theorem onEvent_lockedFrom (ops : ModuleOps M) (st : DaemonState M) (n t : String)
    (d : Params) (tE tN : Int) :
    lockedFrom false (onEvent ops st n t d tE tN).2 = some false := by
  by_cases ht : t = "touched"
  · subst ht
    by_cases hel : st.notifyCooldown ≤ tN - st.lastNotifyTime
    · simp only [onEvent, if_pos rfl, if_pos hel]
      cases hf : List.lookup "face" st.modules with
      | none =>
        simp only [hf]
        cases hl : List.lookup "lcd" st.modules <;>
          by_cases hn : st.notifyEnabled && st.openclawBin <;>
            simp [hl, hn, lockedFrom]
      | some m =>
        simp only [hf]
        have hlu := lookup_updateKey_ne "lcd" "face"
          (ops.handleCommand m "expression" [("name", Value.vstr "surprised")]).2
          st.modules (by decide)
        cases hl : List.lookup "lcd" st.modules <;>
          by_cases hn : st.notifyEnabled && st.openclawBin <;>
            simp [hlu, hl, hn, lockedFrom]
    · rw [onEvent_skip ops st n "touched" d tE tN (Or.inr (not_le.mp hel))]
      rfl
  · rw [onEvent_skip ops st n t d tE tN (Or.inl ht)]
    rfl

/-- C9: every `handle_command` invocation issued by the command router —
direct module dispatch, compound express sub-steps, and batch
sub-commands — and every invocation issued by the event pipeline's
immediate reaction occurs while the single global module-access lock is
held (scanning the whole trace from the unlocked state), which is the
code's serialization discipline for module access. -/
theorem handle_command_under_lock (ops : ModuleOps M) :
    (∀ (st : DaemonState M) (msg : Msg) (r : Response) (st2 : DaemonState M)
      (tr : List Action), handleMessage ops st msg = .ok (r, st2, tr) →
      lockedOk false tr = true) ∧
    (∀ (st : DaemonState M) (n t : String) (d : Params) (tE tN : Int),
      lockedOk false (onEvent ops st n t d tE tN).2 = true) :=
  ⟨fun st msg r st2 tr h =>
     lockedOk_of_lockedFrom (handleMessage_inv ops st msg r st2 tr h).2.2,
   fun st n t d tE tN => lockedOk_of_lockedFrom (onEvent_lockedFrom ops st n t d tE tN)⟩

/-- Witness for C9: a direct face command and a qualifying touched event
at the face+lcd daemon. -/
theorem handle_command_under_lock_witness :
    lockedOk false (traceOf (handleMessage testOps stW
      (Msg.cmd "face" "expression" [("name", Value.vstr "happy")]))) = true ∧
    lockedOk false (onEvent testOps stW "touch" "touched" [] 20 20).2 = true :=
  ⟨(handle_command_under_lock testOps).1 stW
      (Msg.cmd "face" "expression" [("name", Value.vstr "happy")]) _ _ _ rfl,
   (handle_command_under_lock testOps).2 stW "touch" "touched" [] 20 20⟩

theorem lookup_isSome_of_mem_keys {n : String} {l : List (String × M)}
    (h : n ∈ keysOf l) : (List.lookup n l).isSome = true := by
  induction l with
  | nil => simp [keysOf] at h
  | cons kv rest ih =>
    obtain ⟨k, v⟩ := kv
    by_cases hk : n = k
    · subst hk
      simp [List.lookup]
    · simp only [keysOf, List.map_cons, List.mem_cons] at h
      rcases h with h | h
      · exact absurd h hk
      · simp only [List.lookup, beq_eq_false_iff_ne.mpr hk]
        exact ih (by simpa [keysOf] using h)

theorem keysOf_initRegistry_mem (ops : ModuleOps M) (l : List (String × M)) :
    ∀ n, n ∈ keysOf (initRegistry ops l) → n ∈ keysOf l := by
  induction l with
  | nil => intro n hn; simpa [initRegistry, keysOf] using hn
  | cons kv rest ih =>
    obtain ⟨k, v⟩ := kv
    intro n hn
    cases hi : ops.initModule v with
    | ok m2 =>
      simp only [initRegistry, hi, keysOf, List.map_cons, List.mem_cons] at hn ⊢
      rcases hn with rfl | hn
      · exact Or.inl rfl
      · exact Or.inr (ih n hn)
    | exn e =>
      simp only [initRegistry, hi] at hn
      simp only [keysOf, List.map_cons, List.mem_cons]
      exact Or.inr (ih n hn)

theorem lookup_initRegistry (ops : ModuleOps M) (n : String) :
    ∀ (l : List (String × M)), (keysOf l).Nodup → ∀ m, List.lookup n l = some m →
      List.lookup n (initRegistry ops l) =
        (match ops.initModule m with
         | .ok m2 => some (ops.setEventCallback m2)
         | .exn _ => none) := by
  intro l
  induction l with
  | nil => intro _ m h; cases h
  | cons kv rest ih =>
    obtain ⟨k, v⟩ := kv
    intro hnd m h
    simp only [keysOf, List.map_cons, List.nodup_cons] at hnd
    by_cases hk : n = k
    · subst hk
      simp only [List.lookup, beq_self_eq_true, if_true, Option.some.injEq] at h
      subst h
      cases hi : ops.initModule v with
      | ok m2 =>
        simp [initRegistry, hi, List.lookup]
      | exn e =>
        simp only [initRegistry, hi]
        apply lookup_eq_none_of_not_mem
        intro hmem
        exact hnd.1 (keysOf_initRegistry_mem ops rest n hmem)
    · simp only [List.lookup, beq_eq_false_iff_ne.mpr hk] at h
      cases hi : ops.initModule v with
      | ok m2 =>
        simp only [initRegistry, hi, List.lookup, beq_eq_false_iff_ne.mpr hk]
        exact ih (by simpa [keysOf] using hnd.2) m h
      | exn e =>
        simp only [initRegistry, hi]
        exact ih (by simpa [keysOf] using hnd.2) m h

/-- C2: after `init_modules` runs over the discovered registry (unique
names, as a Python dict guarantees): a module whose `init()` raised is
evicted; a module whose `init()` succeeded remains registered with the
event callback wired; a surviving module is reachable — a client command
naming it invokes its `handle_command` under the global lock; routing any
message never changes the registry's key set; and an evicted (or never
registered) name never receives a `handle_command`. -/
theorem init_eviction_and_liveness (ops : ModuleOps M) (st : DaemonState M)
    (hnd : (keysOf st.modules).Nodup) :
    (∀ n m e, List.lookup n st.modules = some m → ops.initModule m = .exn e →
      List.lookup n (initModules ops st).modules = none) ∧
    (∀ n m m2, List.lookup n st.modules = some m → ops.initModule m = .ok m2 →
      List.lookup n (initModules ops st).modules = some (ops.setEventCallback m2)) ∧
    (∀ n m2 a p, ¬ n = "" → ¬ n = "totem" →
      List.lookup n (initModules ops st).modules = some m2 →
      handleMessage ops (initModules ops st) (.cmd n a p) =
        .ok ((ops.handleCommand m2 a p).1,
          {initModules ops st with
            modules := updateKey n (ops.handleCommand m2 a p).2
              (initModules ops st).modules},
          [.acquire, .hcall n a p, .release])) ∧
    (∀ msg r st2 tr, handleMessage ops (initModules ops st) msg = .ok (r, st2, tr) →
      keysOf st2.modules = keysOf (initModules ops st).modules) ∧
    (∀ n msg r st2 tr, List.lookup n (initModules ops st).modules = none →
      handleMessage ops (initModules ops st) msg = .ok (r, st2, tr) →
      n ∉ hcallNames tr) := by
  refine ⟨?_, ?_, ?_, ?_, ?_⟩
  · intro n m e h hexn
    have := lookup_initRegistry ops n st.modules hnd m h
    rw [hexn] at this
    exact this
  · intro n m m2 h hok
    have := lookup_initRegistry ops n st.modules hnd m h
    rw [hok] at this
    exact this
  · intro n m2 a p h1 h2 hlook
    simp only [handleMessage, if_neg h1, if_neg h2, hlook]
  · intro msg r st2 tr h
    exact (handleMessage_inv ops _ msg r st2 tr h).1
  · intro n msg r st2 tr hnone h hmem
    have hin := (handleMessage_inv ops _ msg r st2 tr h).2.1 n hmem
    have hsome := lookup_isSome_of_mem_keys hin
    rw [hnone] at hsome
    cases hsome

/-- Witness for C2: the discovered registry `[face, bad]` where `bad`'s
`init()` raises — after `init_modules` the `bad` module is gone and the
`face` module is live with its callback wired. -/
theorem init_eviction_and_liveness_witness :
    List.lookup "bad" (initModules testOps stDiscovered).modules = none ∧
    List.lookup "face" (initModules testOps stDiscovered).modules =
      some (testOps.setEventCallback faceM) :=
  ⟨(init_eviction_and_liveness testOps stDiscovered (by decide)).1
      "bad" badM "init failed" rfl rfl,
   (init_eviction_and_liveness testOps stDiscovered (by decide)).2.1
      "face" faceM faceM rfl rfl⟩

end Totem

